import Mathlib

/-!
Verification development for the kilo tool-calling assistant.

Shallow embedding of the core orchestration loop (internal/tui/tui.go:
Update / sendMessage / sendFinalMessage), the tool registry and dispatcher
(internal/ai ToolExecutor, internal/tools New / Execute), and the
argument-decoding behaviour of the bash and nvidia_smi tool handlers.

Modelling conventions:
- Go strings are modelled as Lean String; Go len(s) and s[:n] operate on
  bytes while the model uses characters (they agree on ASCII data).
- The Anthropic HTTP transport is external: the Model Gateway is a
  parameter of type Gateway, a pure function from the transcript to
  either a transport error (Except.error) or a Response.
- Tool handlers run subprocesses; each handler body is abstracted as a
  parameter of type ToolHandler, while the registry, dispatch, error
  conversion, truncation and loop control flow are embedded concretely.
-/

namespace Kilo

/-- Models ai.Message (internal/ai/client.go): a flat record with a role
tag and role-dependent optional fields, defaulting to the empty string
like Go zero values. -/
structure Message where
  role : String
  content : String := ""
  toolCallID : String := ""
  toolCallName : String := ""
  toolCallInput : String := ""
deriving DecidableEq, Repr

/-- Models ai.ToolCall: one tool-invocation request from the model. -/
structure ToolCall where
  id : String
  name : String
  input : String
deriving DecidableEq, Repr

/-- Models ai.Response: content plus zero or more tool calls. -/
structure Response where
  content : String
  toolCalls : List ToolCall
deriving DecidableEq, Repr

/-- The Model Gateway as an external collaborator: a pure function from
the transcript to a transport error or a Response (SendMessageWithTools
is stateless per call). -/
def Gateway : Type := List Message → Except String Response

/-- A tool handler body (subprocess execution abstracted): input string
to result string or error string, modelling Go (string, error). -/
def ToolHandler : Type := String → Except String String

/-- The executor seen by the loop: ToolCall to result or error,
modelling Executor.Execute's (string, error) return. -/
def ExecFn : Type := ToolCall → Except String String

instance {ε α : Type _} [DecidableEq ε] [DecidableEq α] :
    DecidableEq (Except ε α) := fun a b =>
  match a, b with
  | Except.ok x, Except.ok y =>
      if h : x = y then Decidable.isTrue (congrArg Except.ok h)
      else Decidable.isFalse (fun hh => h (Except.ok.inj hh))
  | Except.error x, Except.error y =>
      if h : x = y then Decidable.isTrue (congrArg Except.error h)
      else Decidable.isFalse (fun hh => h (Except.error.inj hh))
  | Except.ok _, Except.error _ => Decidable.isFalse (fun hh => Except.noConfusion hh)
  | Except.error _, Except.ok _ => Decidable.isFalse (fun hh => Except.noConfusion hh)

/-- First n characters of a string; models the Go slice result[:5000]
(bytes in Go, characters here; identical on ASCII). -/
def takeChars (s : String) (n : Nat) : String := String.mk (s.data.take n)

/-- The exact truncation marker appended in tui.go lines 218 and 281. -/
def truncMarker : String := "\n... [output truncated, too long]"

/-- Models the truncation step of sendMessage / sendFinalMessage:
if len(result) > 5000 then result = result[:5000] + marker. -/
def truncateResult (r : String) : String :=
  if r.length > 5000 then takeChars r 5000 ++ truncMarker else r

/-- Models the error-to-text conversion at tui.go 211-214 / 274-277:
result, err := Execute(...); if err != nil, result = "Error: " + err. -/
def execResultText (exec : ExecFn) (tc : ToolCall) : String :=
  match exec tc with
  | Except.ok r => r
  | Except.error e => "Error: " ++ e

/-- The AssistantToolRequest turn appended at tui.go 202-208 / 266-271. -/
def toolRequestMsg (tc : ToolCall) : Message :=
  { role := "assistant", toolCallID := tc.id, toolCallName := tc.name,
    toolCallInput := tc.input }

/-- The ToolResult turn appended at tui.go 222-226 / 285-289: role tool,
content the (possibly truncated) result text, tagged with the callID. -/
def toolResultMsg (exec : ExecFn) (tc : ToolCall) : Message :=
  { role := "tool", content := truncateResult (execResultText exec tc),
    toolCallID := tc.id }

/-- A plain user turn (tui.go 119-122). -/
def userMsg (content : String) : Message := { role := "user", content := content }

/-- A plain assistant turn (tui.go 139-151). -/
def assistantMsg (content : String) : Message :=
  { role := "assistant", content := content }

/-- Models the per-response tool loop (tui.go 202-227 and 262-290): for
each tool call in provider order, append the request turn, execute the
handler, convert an error to text, truncate, and append the result turn. -/
def processToolCalls (exec : ExecFn) (msgs : List Message) :
    List ToolCall → List Message
  | [] => msgs
  | tc :: rest =>
      processToolCalls exec (msgs ++ [toolRequestMsg tc, toolResultMsg exec tc]) rest

/-- Terminal outcome of one exchange, as carried by responseMsg. -/
inductive Outcome where
  | done (content : String)
  | failed (err : String)
deriving DecidableEq, Repr

/-- Result of the follow-up loop: outcome, the messages carried in the
responseMsg, the number of tool-execution cycles performed, and the
number of gateway calls issued. -/
structure LoopResult where
  outcome : Outcome
  messages : List Message
  cycles : Nat
  calls : Nat
deriving DecidableEq, Repr

/-- maxIterations in sendFinalMessage (tui.go 243). -/
def maxIterations : Nat := 5

/-- The iteration-exhaustion error text (tui.go 310). -/
def maxIterationsError : String :=
  "reached maximum iterations (5) - Claude kept calling tools"

/-- The empty-response error text (tui.go 306). -/
def emptyResponseError : String :=
  "empty response from Claude (no error, just empty content)"

/-- The wrapping applied to a transport error inside sendFinalMessage
(tui.go 252: fmt.Errorf with final response error plus the cause). -/
def finalErrorWrap (e : String) : String := "final response error: " ++ e

/-- Models the loop body of sendFinalMessage (tui.go 246-310), with the
remaining iteration budget as fuel (the Go loop runs iterations 0..4 and
falls through to the max-iterations error). Each iteration calls the
gateway; a transport error fails with the wrapped error and the current
messages; tool calls are executed and the loop continues; otherwise
non-empty content ends the exchange and empty content is the
empty-response failure. -/
def finalLoop (gw : Gateway) (exec : ExecFn) : Nat → List Message → LoopResult
  | 0, msgs => ⟨Outcome.failed maxIterationsError, msgs, 0, 0⟩
  | Nat.succ n, msgs =>
      match gw msgs with
      | Except.error e => ⟨Outcome.failed (finalErrorWrap e), msgs, 0, 1⟩
      | Except.ok resp =>
          if resp.toolCalls = [] then
            if resp.content = "" then ⟨Outcome.failed emptyResponseError, msgs, 0, 1⟩
            else ⟨Outcome.done resp.content, msgs, 0, 1⟩
          else
            let r := finalLoop gw exec n (processToolCalls exec msgs resp.toolCalls)
            ⟨r.outcome, r.messages, r.cycles + 1, r.calls + 1⟩

/-- Result of a whole exchange: the responseMsg-level outcome and
messages, the transcript the TUI model retains after Update handles the
responseMsg, and the cycle / gateway-call counts. -/
structure ExchangeResult where
  outcome : Outcome
  resultMessages : List Message
  finalTranscript : List Message
  cycles : Nat
  calls : Nat
deriving DecidableEq, Repr

/-- Models one full exchange: Update appends the user turn and runs
sendMessage (tui.go 108-133, 184-234); if the first response carries
tool calls, they are executed and sendFinalMessage runs with budget
maxIterations (tui.go 173-177, 236-312); finally Update's responseMsg
case (tui.go 136-155) produces the retained transcript. On the first
call a transport error returns responseMsg with a nil messages field
(tui.go 191), and Update appends an inline error turn to the model's
own messages; on an error from sendFinalMessage, Update likewise
appends the error turn to the messages it retained from
toolExecutedMsg, discarding the responseMsg's messages field. -/
def runExchange (gw : Gateway) (exec : ExecFn) (m0 : List Message)
    (input : String) : ExchangeResult :=
  let msgs1 := m0 ++ [userMsg input]
  match gw msgs1 with
  | Except.error e =>
      ⟨Outcome.failed e, [], msgs1 ++ [assistantMsg ("Error: " ++ e)], 0, 1⟩
  | Except.ok resp =>
      if resp.toolCalls = [] then
        ⟨Outcome.done resp.content, msgs1,
          msgs1 ++ [assistantMsg resp.content], 0, 1⟩
      else
        let msgs2 := processToolCalls exec msgs1 resp.toolCalls
        let r := finalLoop gw exec maxIterations msgs2
        match r.outcome with
        | Outcome.failed e =>
            ⟨Outcome.failed e, r.messages,
              msgs2 ++ [assistantMsg ("Error: " ++ e)], r.cycles + 1, r.calls + 1⟩
        | Outcome.done c =>
            ⟨Outcome.done c, r.messages,
              (if r.messages = [] then msgs2 else r.messages) ++ [assistantMsg c],
              r.cycles + 1, r.calls + 1⟩

/-- Models strings.TrimSpace: remove leading and trailing whitespace
characters (Go trims the unicode.IsSpace set; the model trims
Char.isWhitespace, which agrees on ASCII whitespace). -/
def trimSpace (s : String) : String :=
  String.mk
    (((s.data.dropWhile Char.isWhitespace).reverse.dropWhile
        Char.isWhitespace).reverse)

/-- Models the tea.KeyEnter branch of Update (tui.go 108-134) restricted
to the embedded state: the transcript, the thinking flag, and whether a
gateway exchange is started (sendMessage returned as the command). -/
def handleEnter (thinking : Bool) (msgs : List Message) (inputValue : String) :
    List Message × Bool × Bool :=
  if thinking then (msgs, thinking, false)
  else
    let userInput := trimSpace inputValue
    if userInput = "" then (msgs, thinking, false)
    else (msgs ++ [userMsg userInput], true, true)

/-- Models ai.ToolExecutor (tools field, a Go map from tool name to
handler), represented as a lookup function. -/
structure ToolExecutor where
  tools : String → Option ToolHandler

/-- Models ToolExecutor.RegisterTool (tui.go source, ai package lines
478-480): a plain map assignment te.tools[name] = handler. It returns
nothing in Go; here the updated registry. -/
def RegisterTool (te : ToolExecutor) (name : String) (handler : ToolHandler) :
    ToolExecutor :=
  ⟨fun n => if n = name then some handler else te.tools n⟩

/-- Models ToolExecutor.Execute (ai package lines 482-489): look the
tool name up; absent names yield the tool-not-found error, otherwise the
handler runs on the raw input string. -/
def Execute (te : ToolExecutor) (tc : ToolCall) : Except String String :=
  match te.tools tc.name with
  | none => Except.error ("tool not found: " ++ tc.name)
  | some handler => handler tc.input

/-- Models ai.NewToolExecutor (ai package lines 466-476): an empty map,
then RegisterTool of bash and get_time with the ai-package handlers
(handler bodies abstracted as parameters). -/
def NewToolExecutor (aiBash aiGetTime : ToolHandler) : ToolExecutor :=
  RegisterTool (RegisterTool ⟨fun _ => none⟩ "bash" aiBash) "get_time" aiGetTime

/-- Models tools.New (internal/tools/tools.go): ai.NewToolExecutor
followed by RegisterTool of bash (ExecuteBash, replacing the ai-package
entry) and nvidia_smi (ExecuteNvidiaSmi). -/
def toolsNew (aiBash aiGetTime bashHandler nvidiaHandler : ToolHandler) :
    ToolExecutor :=
  RegisterTool
    (RegisterTool (NewToolExecutor aiBash aiGetTime) "bash" bashHandler)
    "nvidia_smi" nvidiaHandler

/-- JSON values, for the argument payloads handed to tool handlers. The
textual layer (Go encoding/json's parser) is external to the model;
payloads are modelled at the value level. -/
inductive Json where
  | null
  | bool (b : Bool)
  | num (n : Int)
  | str (s : String)
  | arr (xs : List Json)
  | obj (kvs : List (String × Json))

/-- Character-wise case-insensitive match of a key against a target
spelled in lowercase ASCII letters: each key character must be the
target letter itself or its uppercase form. For the field name command
this coincides with Go's strings.EqualFold, whose only fold
equivalents outside ASCII case pairs concern the letters k and s,
which do not occur in the name. -/
def matchesFold : List Char → List Char → Bool
  | [], [] => true
  | c :: cs, t :: ts => (c = t || c.toNat + 32 = t.toNat) && matchesFold cs ts
  | _, _ => false

/-- Whether an object key matches the struct field tagged command under
encoding/json's field matching: the exact name or, failing that, a
case-insensitive match. With a single field both collapse to
fold-equality with the tag. -/
def keyMatchesCommand (k : String) : Bool :=
  matchesFold k.data ("command" : String).data

/-- The field type-error text used by the model (Go's
UnmarshalTypeError for the command field, message abstracted). -/
def commandTypeError : String := "cannot unmarshal value into field command"

/-- Whether a JSON value stores into a Go string field without a type
error: strings assign, null is a no-op. -/
def isStrOrNull : Json → Bool
  | Json.str _ => true
  | Json.null => true
  | _ => false

/-- One object member processed by json.Unmarshal's object loop for
struct \x7b Command string \x7d: the state is the field value so far
and the saved (first) decode error. A key that does not match the
field is skipped; a matching string binding assigns, so later bindings
overwrite; a matching null is a no-op; any other matching value saves
a type error if none is saved yet — decoding continues either way. -/
def decodeCommandStep (acc : String × Option String) (p : String × Json) :
    String × Option String :=
  if keyMatchesCommand p.1 then
    match p.2 with
    | Json.str s => (s, acc.2)
    | Json.null => acc
    | _ =>
        match acc.2 with
        | some e => (acc.1, some e)
        | none => (acc.1, some commandTypeError)
  else acc

/-- json.Unmarshal of a JSON object into struct \x7b Command string \x7d:
process the members in order starting from the zero value, then return
the saved error if there is one, else the accumulated field value. -/
def decodeCommandObj (kvs : List (String × Json)) : Except String String :=
  match kvs.foldl decodeCommandStep ("", none) with
  | (_, some e) => Except.error e
  | (cur, none) => Except.ok cur

/-- Models json.Unmarshal(input, &params) for params a struct with one
string field tagged command: an object is decoded member by member
(decodeCommandStep); a JSON null document leaves the zero value with
no error; any other document is a type error. -/
def unmarshalCommand : Json → Except String String
  | Json.obj kvs => decodeCommandObj kvs
  | Json.null => Except.ok ""
  | _ => Except.error "cannot unmarshal value into struct"

/-- Models tools.ExecuteBash (internal/tools/bash.go lines 30-48): decode
the command parameter, wrapping a decode failure as the invalid-input
error; otherwise run the command (subprocess abstracted as shell). -/
def ExecuteBash (shell : ToolHandler) (input : Json) : Except String String :=
  match unmarshalCommand input with
  | Except.error e => Except.error ("invalid input: " ++ e)
  | Except.ok cmd => shell cmd

/-- Models tools.ExecuteNvidiaSmi (internal/tools/nvidia.go lines
29-47), whose decode step is identical to ExecuteBash's. -/
def ExecuteNvidiaSmi (shell : ToolHandler) (input : Json) : Except String String :=
  match unmarshalCommand input with
  | Except.error e => Except.error ("invalid input: " ++ e)
  | Except.ok cmd => shell cmd

/-- The transcript invariant of the spec: every tool turn's callID
matches an assistant tool-request turn appended strictly earlier. -/
def WellFormed (msgs : List Message) : Prop :=
  ∀ j, ∀ hj : j < msgs.length, (msgs.get ⟨j, hj⟩).role = "tool" →
    ∃ i, ∃ hi : i < msgs.length, i < j ∧
      (msgs.get ⟨i, hi⟩).role = "assistant" ∧
      (msgs.get ⟨i, hi⟩).toolCallID = (msgs.get ⟨j, hj⟩).toolCallID

/-- Concrete tool call used by witnesses and counterexamples. -/
def tcBash : ToolCall := ⟨"t1", "bash", "{}"⟩

/-- Gateway that always requests one more tool call. -/
def gwToolsAlways : Gateway := fun _ => Except.ok ⟨"aside", [tcBash]⟩

/-- Executor that always succeeds with a short result. -/
def execOk : ExecFn := fun _ => Except.ok "ok"

/-- The pattern pat occurs in s at character position i. -/
def occursAt (pat s : String) (i : Nat) : Prop :=
  pat.data.isPrefixOf (s.data.drop i) = true

/-- The pattern pat occurs at exactly one position of s. -/
def containsExactlyOnce (pat s : String) : Prop :=
  ∃! i : Nat, occursAt pat s i

/-- A 5001-character tool result, one character past the cap. -/
def longA : String := String.mk (List.replicate 5001 'a')

/-- A 5001-character tool result that begins with the truncation
marker itself. -/
def markerPadded : String := truncMarker ++ String.mk (List.replicate 4968 'a')

/-- Scripted gateway: answers with one tool request until the
transcript holds five turns, then fails with a transport error. -/
def gwFailThird : Gateway := fun msgs =>
  if 5 ≤ msgs.length then Except.error "boom"
  else Except.ok ⟨"", [tcBash]⟩

theorem processToolCalls_eq (exec : ExecFn) :
    ∀ (tcs : List ToolCall) (msgs : List Message),
      processToolCalls exec msgs tcs =
        msgs ++ tcs.flatMap (fun tc => [toolRequestMsg tc, toolResultMsg exec tc])
  | [], msgs => by simp [processToolCalls]
  | tc :: rest, msgs => by
      rw [processToolCalls, processToolCalls_eq exec rest]
      simp

theorem finalLoop_gw_error (gw : Gateway) (exec : ExecFn) (n : Nat)
    (msgs : List Message) (e : String) (h : gw msgs = Except.error e) :
    finalLoop gw exec (n + 1) msgs =
      ⟨Outcome.failed (finalErrorWrap e), msgs, 0, 1⟩ := by
  simp [finalLoop, h]

theorem finalLoop_tools (gw : Gateway) (exec : ExecFn) (n : Nat)
    (msgs : List Message) (resp : Response) (h : gw msgs = Except.ok resp)
    (h2 : resp.toolCalls ≠ []) :
    finalLoop gw exec (n + 1) msgs =
      ⟨(finalLoop gw exec n (processToolCalls exec msgs resp.toolCalls)).outcome,
       (finalLoop gw exec n (processToolCalls exec msgs resp.toolCalls)).messages,
       (finalLoop gw exec n (processToolCalls exec msgs resp.toolCalls)).cycles + 1,
       (finalLoop gw exec n (processToolCalls exec msgs resp.toolCalls)).calls + 1⟩ := by
  simp [finalLoop, h, h2]

theorem finalLoop_text (gw : Gateway) (exec : ExecFn) (n : Nat)
    (msgs : List Message) (resp : Response) (h : gw msgs = Except.ok resp)
    (h2 : resp.toolCalls = []) (h3 : resp.content ≠ "") :
    finalLoop gw exec (n + 1) msgs = ⟨Outcome.done resp.content, msgs, 0, 1⟩ := by
  simp [finalLoop, h, h2, h3]

theorem finalLoop_empty_resp (gw : Gateway) (exec : ExecFn) (n : Nat)
    (msgs : List Message) (resp : Response) (h : gw msgs = Except.ok resp)
    (h2 : resp.toolCalls = []) (h3 : resp.content = "") :
    finalLoop gw exec (n + 1) msgs =
      ⟨Outcome.failed emptyResponseError, msgs, 0, 1⟩ := by
  simp [finalLoop, h, h2, h3]

theorem finalLoop_counts_le (gw : Gateway) (exec : ExecFn) :
    ∀ (n : Nat) (msgs : List Message),
      (finalLoop gw exec n msgs).cycles ≤ n ∧ (finalLoop gw exec n msgs).calls ≤ n
  | 0, _ => by simp [finalLoop]
  | Nat.succ n, msgs => by
      rcases hgw : gw msgs with e | resp
      · rw [finalLoop_gw_error gw exec n msgs e hgw]
        simp
      · by_cases h2 : resp.toolCalls = []
        · by_cases h3 : resp.content = ""
          · rw [finalLoop_empty_resp gw exec n msgs resp hgw h2 h3]; simp
          · rw [finalLoop_text gw exec n msgs resp hgw h2 h3]; simp
        · rw [finalLoop_tools gw exec n msgs resp hgw h2]
          have := finalLoop_counts_le gw exec n
            (processToolCalls exec msgs resp.toolCalls)
          simp only []
          omega

theorem runExchange_gw_error (gw : Gateway) (exec : ExecFn) (m0 : List Message)
    (input e : String) (h : gw (m0 ++ [userMsg input]) = Except.error e) :
    runExchange gw exec m0 input =
      ⟨Outcome.failed e, [],
        (m0 ++ [userMsg input]) ++ [assistantMsg ("Error: " ++ e)], 0, 1⟩ := by
  simp [runExchange, h]

theorem runExchange_no_tools (gw : Gateway) (exec : ExecFn) (m0 : List Message)
    (input : String) (resp : Response)
    (h : gw (m0 ++ [userMsg input]) = Except.ok resp) (h2 : resp.toolCalls = []) :
    runExchange gw exec m0 input =
      ⟨Outcome.done resp.content, m0 ++ [userMsg input],
        (m0 ++ [userMsg input]) ++ [assistantMsg resp.content], 0, 1⟩ := by
  simp [runExchange, h, h2]

theorem runExchange_tools (gw : Gateway) (exec : ExecFn) (m0 : List Message)
    (input : String) (resp : Response)
    (h : gw (m0 ++ [userMsg input]) = Except.ok resp) (h2 : resp.toolCalls ≠ []) :
    runExchange gw exec m0 input =
      ((fun msgs2 r =>
        match r.outcome with
        | Outcome.failed e =>
            ⟨Outcome.failed e, r.messages,
              msgs2 ++ [assistantMsg ("Error: " ++ e)], r.cycles + 1, r.calls + 1⟩
        | Outcome.done c =>
            ⟨Outcome.done c, r.messages,
              (if r.messages = [] then msgs2 else r.messages) ++ [assistantMsg c],
              r.cycles + 1, r.calls + 1⟩ : List Message → LoopResult → ExchangeResult)
        (processToolCalls exec (m0 ++ [userMsg input]) resp.toolCalls)
        (finalLoop gw exec maxIterations
          (processToolCalls exec (m0 ++ [userMsg input]) resp.toolCalls))) := by
  simp only [runExchange, h, h2, if_neg, if_false]

/-- C1. Corrected. For every exchange, the orchestration performs at
most 6 AwaitingModel to ExecutingTools cycles in total — one from the
initial sendMessage plus at most maxIterations = 5 inside
sendFinalMessage — and at most 6 gateway calls; when the follow-up
budget is exhausted the loop ends Failed with the
reached-maximum-iterations error without issuing a further gateway
call, preserving the transcript accumulated so far (including the
results of the final executed cycle) in the failure result. -/
theorem c1_iteration_bound :
    (∀ (gw : Gateway) (exec : ExecFn) (m0 : List Message) (input : String),
        (runExchange gw exec m0 input).cycles ≤ 6 ∧
        (runExchange gw exec m0 input).calls ≤ 6) ∧
    (∀ (gw : Gateway) (exec : ExecFn) (msgs : List Message),
        finalLoop gw exec 0 msgs =
          ⟨Outcome.failed maxIterationsError, msgs, 0, 0⟩) := by
  constructor
  · intro gw exec m0 input
    rcases hgw : gw (m0 ++ [userMsg input]) with e | resp
    · rw [runExchange_gw_error gw exec m0 input e hgw]
      simp
    · by_cases h2 : resp.toolCalls = []
      · rw [runExchange_no_tools gw exec m0 input resp hgw h2]
        simp
      · rw [runExchange_tools gw exec m0 input resp hgw h2]
        have hle := finalLoop_counts_le gw exec maxIterations
          (processToolCalls exec (m0 ++ [userMsg input]) resp.toolCalls)
        have hmax : maxIterations = 5 := rfl
        rw [hmax] at hle ⊢
        cases hout : (finalLoop gw exec 5
            (processToolCalls exec (m0 ++ [userMsg input]) resp.toolCalls)).outcome <;>
          simp only [hout] <;> exact ⟨by omega, by omega⟩
  · intro gw exec msgs
    rfl

/-- C1 counterexample to the claim as stated: with a gateway that
always answers with a tool request, a single exchange performs 6
tool-execution cycles (so not at most 5), and the 6th response's tool
requests are executed (12 tool-related turns follow the user turn in
the failure result) before the loop fails with the maximum-iterations
error. -/
theorem c1_counterexample :
    (runExchange gwToolsAlways execOk [] "hi").cycles = 6 ∧
    ¬ (runExchange gwToolsAlways execOk [] "hi").cycles ≤ 5 ∧
    (runExchange gwToolsAlways execOk [] "hi").outcome =
      Outcome.failed maxIterationsError ∧
    (runExchange gwToolsAlways execOk [] "hi").resultMessages.length = 13 := by
  refine ⟨by decide, by decide, by decide, by decide⟩

theorem string_data_length (s : String) : s.data.length = s.length := rfl

theorem takeChars_data (s : String) (n : Nat) :
    (takeChars s n).data = s.data.take n := rfl

theorem takeChars_length (s : String) (n : Nat) :
    (takeChars s n).length = min n s.length := by
  rw [← string_data_length, takeChars_data, List.length_take, string_data_length]

theorem string_append_left_cancel {a b c : String} (h : a ++ b = a ++ c) :
    b = c := by
  have h2 := congrArg String.data h
  rw [String.data_append, String.data_append] at h2
  have h3 := List.append_cancel_left h2
  cases b
  cases c
  exact congrArg String.mk h3

theorem truncateResult_long {r : String} (h : r.length > 5000) :
    truncateResult r = takeChars r 5000 ++ truncMarker := by
  simp [truncateResult, h]

theorem truncateResult_short {r : String} (h : r.length ≤ 5000) :
    truncateResult r = r := by
  simp [truncateResult, Nat.not_lt.mpr h]

theorem truncMarker_length : truncMarker.length = 33 := rfl

theorem truncateResult_long_length {r : String} (h : r.length > 5000) :
    (truncateResult r).length = 5000 + truncMarker.length := by
  rw [truncateResult_long h, String.length_append, takeChars_length]
  omega

theorem truncateResult_marker_at_cap {r : String} (h : r.length > 5000) :
    occursAt truncMarker (truncateResult r) 5000 := by
  rw [truncateResult_long h, occursAt, String.data_append, takeChars_data]
  rw [List.drop_left' (by rw [List.length_take, string_data_length]; omega)]
  exact List.isPrefixOf_iff_prefix.mpr List.prefix_rfl

/-- C2. Corrected. For every tool result string longer than 5000
characters, the content placed in the ToolResult turn is exactly the
first 5000 characters followed by the marker of the source, the string
of a newline then dots then output truncated, too long in brackets
(not the spec's shorter marker text); the stored length is exactly
5000 plus the marker length, and the marker is present as a suffix at
position 5000, though not necessarily exactly once, because the first
5000 characters may themselves contain the marker; results of at most
5000 characters are stored unchanged. -/
theorem c2_truncation (r : String) :
    (r.length > 5000 →
      truncateResult r = takeChars r 5000 ++ truncMarker ∧
      (truncateResult r).length = 5000 + truncMarker.length ∧
      occursAt truncMarker (truncateResult r) 5000) ∧
    (r.length ≤ 5000 → truncateResult r = r) ∧
    (∀ (exec : ExecFn) (tc : ToolCall),
      (toolResultMsg exec tc).content = truncateResult (execResultText exec tc)) :=
  ⟨fun h => ⟨truncateResult_long h, truncateResult_long_length h,
      truncateResult_marker_at_cap h⟩,
   fun h => truncateResult_short h,
   fun _ _ => rfl⟩

theorem c2_truncation_witness :
    (longA.length > 5000 ∧
      truncateResult longA = takeChars longA 5000 ++ truncMarker) ∧
    (("ok" : String).length ≤ 5000 ∧ truncateResult "ok" = "ok") :=
  ⟨⟨by rw [longA, String.length_mk, List.length_replicate]; omega,
    ((c2_truncation longA).1
      (by rw [longA, String.length_mk, List.length_replicate]; omega)).1⟩,
   ⟨by decide, (c2_truncation "ok").2.1 (by decide)⟩⟩

theorem string_data_mk (l : List Char) : (String.mk l).data = l := rfl

theorem markerPadded_length : markerPadded.length = 5001 := by
  rw [markerPadded, String.length_append, truncMarker_length, String.length_mk,
    List.length_replicate]

theorem markerPadded_take_data :
    markerPadded.data.take 5000 = truncMarker.data ++ List.replicate 4967 'a' := by
  have hlen : truncMarker.data.length = 33 := rfl
  rw [markerPadded, String.data_append, string_data_mk,
    List.take_append_eq_append_take,
    List.take_of_length_le (by rw [hlen]; omega), hlen, List.take_replicate]
  norm_num

/-- C2 counterexample to the claim as stated: for the 5001-character
result longA, the stored content is not the first 5000 characters
followed by the spec's marker text (the source appends a different
marker string); and for the 5001-character result markerPadded, whose
first 5000 characters start with the real marker, the marker occurs at
positions 0 and 5000 of the stored content, so it is not present
exactly once. -/
theorem c2_counterexample :
    truncateResult longA ≠ takeChars longA 5000 ++ "...[output truncated]" ∧
    occursAt truncMarker (truncateResult markerPadded) 0 ∧
    occursAt truncMarker (truncateResult markerPadded) 5000 ∧
    ¬ containsExactlyOnce truncMarker (truncateResult markerPadded) := by
  have hlong : longA.length > 5000 := by
    rw [longA, String.length_mk, List.length_replicate]; omega
  have hpad : markerPadded.length > 5000 := by rw [markerPadded_length]; omega
  have h0 : occursAt truncMarker (truncateResult markerPadded) 0 := by
    rw [truncateResult_long hpad, occursAt, String.data_append, takeChars_data,
      List.drop_zero, markerPadded_take_data, List.append_assoc]
    exact List.isPrefixOf_iff_prefix.mpr (List.prefix_append _ _)
  have h5 : occursAt truncMarker (truncateResult markerPadded) 5000 :=
    truncateResult_marker_at_cap hpad
  refine ⟨?_, h0, h5, ?_⟩
  · rw [truncateResult_long hlong]
    intro h
    have h2 := string_append_left_cancel h
    have h3 := congrArg String.data h2
    revert h3
    decide
  · rintro ⟨i, hi, huniq⟩
    have e0 := huniq 0 h0
    have e5 := huniq 5000 h5
    omega

theorem wf_nil : WellFormed ([] : List Message) := by
  intro j hj
  exact absurd hj (by simp)

theorem wf_append_nontool {msgs : List Message} (h : WellFormed msgs)
    {m : Message} (hm : m.role ≠ "tool") : WellFormed (msgs ++ [m]) := by
  intro j hjlt htool
  have hlen : (msgs ++ [m]).length = msgs.length + 1 := by simp
  by_cases hj : j < msgs.length
  · have hget : (msgs ++ [m]).get ⟨j, hjlt⟩ = msgs.get ⟨j, hj⟩ := by
      rw [List.get_eq_getElem, List.get_eq_getElem]
      exact List.getElem_append_left hj
    rw [hget] at htool
    obtain ⟨i, hi, hlt, hrole, hid⟩ := h j hj htool
    have hi2 : i < (msgs ++ [m]).length := by omega
    have hgeti : (msgs ++ [m]).get ⟨i, hi2⟩ = msgs.get ⟨i, hi⟩ := by
      rw [List.get_eq_getElem, List.get_eq_getElem]
      exact List.getElem_append_left hi
    refine ⟨i, hi2, hlt, ?_, ?_⟩
    · rw [hgeti]; exact hrole
    · rw [hgeti, hget]; exact hid
  · have hj2 : j = msgs.length := by omega
    have hget : (msgs ++ [m]).get ⟨j, hjlt⟩ = m := by
      rw [List.get_eq_getElem]
      exact List.getElem_concat_length msgs m j hj2 _
    rw [hget] at htool
    exact absurd htool hm

theorem wf_append_pair {msgs : List Message} (h : WellFormed msgs)
    (exec : ExecFn) (tc : ToolCall) :
    WellFormed (msgs ++ [toolRequestMsg tc, toolResultMsg exec tc]) := by
  intro j hjlt htool
  have hlen : (msgs ++ [toolRequestMsg tc, toolResultMsg exec tc]).length
      = msgs.length + 2 := by simp
  by_cases hj : j < msgs.length
  · have hget : (msgs ++ [toolRequestMsg tc, toolResultMsg exec tc]).get ⟨j, hjlt⟩
        = msgs.get ⟨j, hj⟩ := by
      rw [List.get_eq_getElem, List.get_eq_getElem]
      exact List.getElem_append_left hj
    rw [hget] at htool
    obtain ⟨i, hi, hlt, hrole, hid⟩ := h j hj htool
    have hi2 : i < (msgs ++ [toolRequestMsg tc, toolResultMsg exec tc]).length := by
      omega
    have hgeti : (msgs ++ [toolRequestMsg tc, toolResultMsg exec tc]).get ⟨i, hi2⟩
        = msgs.get ⟨i, hi⟩ := by
      rw [List.get_eq_getElem, List.get_eq_getElem]
      exact List.getElem_append_left hi
    refine ⟨i, hi2, hlt, ?_, ?_⟩
    · rw [hgeti]; exact hrole
    · rw [hgeti, hget]; exact hid
  · by_cases hj1 : j = msgs.length
    · have hget : (msgs ++ [toolRequestMsg tc, toolResultMsg exec tc]).get ⟨j, hjlt⟩
          = toolRequestMsg tc := by
        rw [List.get_eq_getElem]
        rw [List.getElem_append_right (show msgs.length ≤ j by omega)]
        simp [hj1]
      rw [hget] at htool
      simp [toolRequestMsg] at htool
    · have hj2 : j = msgs.length + 1 := by omega
      have hgetj : (msgs ++ [toolRequestMsg tc, toolResultMsg exec tc]).get ⟨j, hjlt⟩
          = toolResultMsg exec tc := by
        rw [List.get_eq_getElem]
        rw [List.getElem_append_right (show msgs.length ≤ j by omega)]
        simp [hj2]
      have hi2 : msgs.length < (msgs ++ [toolRequestMsg tc, toolResultMsg exec tc]).length := by
        omega
      have hgeti : (msgs ++ [toolRequestMsg tc, toolResultMsg exec tc]).get
          ⟨msgs.length, hi2⟩ = toolRequestMsg tc := by
        rw [List.get_eq_getElem]
        rw [List.getElem_append_right (Nat.le_refl msgs.length)]
        simp
      refine ⟨msgs.length, hi2, by omega, ?_, ?_⟩
      · rw [hgeti]; rfl
      · rw [hgeti, hgetj]; rfl

theorem wf_processToolCalls (exec : ExecFn) :
    ∀ (tcs : List ToolCall) (msgs : List Message), WellFormed msgs →
      WellFormed (processToolCalls exec msgs tcs)
  | [], _, h => h
  | tc :: rest, msgs, h => by
      rw [processToolCalls]
      exact wf_processToolCalls exec rest _ (wf_append_pair h exec tc)

theorem wf_finalLoop (gw : Gateway) (exec : ExecFn) :
    ∀ (n : Nat) (msgs : List Message), WellFormed msgs →
      WellFormed (finalLoop gw exec n msgs).messages
  | 0, _, h => h
  | Nat.succ n, msgs, h => by
      rcases hgw : gw msgs with e | resp
      · rw [finalLoop_gw_error gw exec n msgs e hgw]; exact h
      · by_cases h2 : resp.toolCalls = []
        · by_cases h3 : resp.content = ""
          · rw [finalLoop_empty_resp gw exec n msgs resp hgw h2 h3]; exact h
          · rw [finalLoop_text gw exec n msgs resp hgw h2 h3]; exact h
        · rw [finalLoop_tools gw exec n msgs resp hgw h2]
          exact wf_finalLoop gw exec n _ (wf_processToolCalls exec _ _ h)

/-- C3. Confirmed. In every transcript produced by a completed or
failed exchange (both the messages carried in the result and the
transcript the TUI retains), each ToolResult turn's callID equals the
callID of an AssistantToolRequest turn appended strictly earlier, and
results are appended immediately after their requests in provider
order: one ExecutingTools phase appends exactly the request-result
pairs of the response's tool calls, in order. -/
theorem c3_toolresult_matching :
    (∀ (exec : ExecFn) (msgs : List Message) (tcs : List ToolCall),
      processToolCalls exec msgs tcs =
        msgs ++ tcs.flatMap (fun tc => [toolRequestMsg tc, toolResultMsg exec tc])) ∧
    (∀ (gw : Gateway) (exec : ExecFn) (m0 : List Message) (input : String),
      WellFormed m0 →
        WellFormed (runExchange gw exec m0 input).finalTranscript ∧
        WellFormed (runExchange gw exec m0 input).resultMessages) := by
  constructor
  · intro exec msgs tcs
    exact processToolCalls_eq exec tcs msgs
  · intro gw exec m0 input h0
    have h1 : WellFormed (m0 ++ [userMsg input]) :=
      wf_append_nontool h0 (by simp [userMsg])
    rcases hgw : gw (m0 ++ [userMsg input]) with e | resp
    · rw [runExchange_gw_error gw exec m0 input e hgw]
      exact ⟨wf_append_nontool h1 (by simp [assistantMsg]), wf_nil⟩
    · by_cases h2 : resp.toolCalls = []
      · rw [runExchange_no_tools gw exec m0 input resp hgw h2]
        exact ⟨wf_append_nontool h1 (by simp [assistantMsg]), h1⟩
      · rw [runExchange_tools gw exec m0 input resp hgw h2]
        have hmsgs2 := wf_processToolCalls exec resp.toolCalls _ h1
        have hr := wf_finalLoop gw exec maxIterations _ hmsgs2
        cases hout : (finalLoop gw exec maxIterations
            (processToolCalls exec (m0 ++ [userMsg input]) resp.toolCalls)).outcome with
        | done c =>
            simp only [hout]
            refine ⟨?_, hr⟩
            by_cases hre : (finalLoop gw exec maxIterations
                (processToolCalls exec (m0 ++ [userMsg input]) resp.toolCalls)).messages = []
            · simp only [hre, if_pos]
              exact wf_append_nontool hmsgs2 (by simp [assistantMsg])
            · simp only [hre, if_neg, if_false]
              exact wf_append_nontool hr (by simp [assistantMsg])
        | failed e =>
            simp only [hout]
            exact ⟨wf_append_nontool hmsgs2 (by simp [assistantMsg]), hr⟩

theorem c3_toolresult_matching_witness :
    WellFormed ([] : List Message) ∧
    WellFormed (runExchange gwToolsAlways execOk [] "hi").finalTranscript ∧
    WellFormed (runExchange gwToolsAlways execOk [] "hi").resultMessages :=
  ⟨wf_nil,
   (c3_toolresult_matching.2 gwToolsAlways execOk [] "hi" wf_nil).1,
   (c3_toolresult_matching.2 gwToolsAlways execOk [] "hi" wf_nil).2⟩

/-- C4. Confirmed. A tool invocation failure is never fatal: Execute on
an unregistered name returns the tool-not-found error; any executor
error is converted into the textual content of the ToolResult turn
(Error: prefixed, then truncated); and a response carrying tool calls
always makes the loop execute them and proceed to the next gateway
call, whatever the executor returned. -/
theorem c4_tool_failure_nonfatal
    (aiBash aiGetTime bashH nvidiaH : ToolHandler) (tc : ToolCall)
    (h1 : tc.name ≠ "bash") (h2 : tc.name ≠ "nvidia_smi")
    (h3 : tc.name ≠ "get_time") :
    Execute (toolsNew aiBash aiGetTime bashH nvidiaH) tc =
      Except.error ("tool not found: " ++ tc.name) ∧
    (∀ (exec : ExecFn) (e : String), exec tc = Except.error e →
      toolResultMsg exec tc =
        { role := "tool", content := truncateResult ("Error: " ++ e),
          toolCallID := tc.id }) ∧
    (∀ (gw : Gateway) (exec : ExecFn) (n : Nat) (msgs : List Message)
        (resp : Response),
      gw msgs = Except.ok resp → resp.toolCalls ≠ [] →
      finalLoop gw exec (n + 1) msgs =
        ⟨(finalLoop gw exec n (processToolCalls exec msgs resp.toolCalls)).outcome,
         (finalLoop gw exec n (processToolCalls exec msgs resp.toolCalls)).messages,
         (finalLoop gw exec n (processToolCalls exec msgs resp.toolCalls)).cycles + 1,
         (finalLoop gw exec n (processToolCalls exec msgs resp.toolCalls)).calls + 1⟩) := by
  refine ⟨?_, ?_, ?_⟩
  · simp [Execute, toolsNew, RegisterTool, NewToolExecutor, h1, h2, h3]
  · intro exec e he
    simp [toolResultMsg, execResultText, he]
  · intro gw exec n msgs resp hgw htc
    exact finalLoop_tools gw exec n msgs resp hgw htc

theorem c4_tool_failure_nonfatal_witness :
    Execute (toolsNew (fun _ => Except.ok "x") (fun _ => Except.ok "x")
        (fun _ => Except.ok "x") (fun _ => Except.ok "x"))
      ⟨"id1", "bogus_tool", "{}"⟩ =
      Except.error ("tool not found: " ++ "bogus_tool") ∧
    toolResultMsg (fun _ => Except.error "boom") ⟨"id1", "bogus_tool", "{}"⟩ =
      { role := "tool", content := truncateResult ("Error: " ++ "boom"),
        toolCallID := "id1" } ∧
    finalLoop gwToolsAlways (fun _ => Except.error "boom") 1 [] =
      ⟨(finalLoop gwToolsAlways (fun _ => Except.error "boom") 0
          (processToolCalls (fun _ => Except.error "boom") [] [tcBash])).outcome,
       (finalLoop gwToolsAlways (fun _ => Except.error "boom") 0
          (processToolCalls (fun _ => Except.error "boom") [] [tcBash])).messages,
       (finalLoop gwToolsAlways (fun _ => Except.error "boom") 0
          (processToolCalls (fun _ => Except.error "boom") [] [tcBash])).cycles + 1,
       (finalLoop gwToolsAlways (fun _ => Except.error "boom") 0
          (processToolCalls (fun _ => Except.error "boom") [] [tcBash])).calls + 1⟩ :=
  have h := c4_tool_failure_nonfatal (fun _ => Except.ok "x") (fun _ => Except.ok "x")
    (fun _ => Except.ok "x") (fun _ => Except.ok "x") ⟨"id1", "bogus_tool", "{}"⟩
    (by decide) (by decide) (by decide)
  ⟨h.1, h.2.1 (fun _ => Except.error "boom") "boom" rfl,
   h.2.2 gwToolsAlways (fun _ => Except.error "boom") 0 [] ⟨"aside", [tcBash]⟩
     rfl (by decide)⟩

/-- C5. Corrected. Inside the follow-up loop, a gateway response with no
tool requests and empty content makes the exchange Failed with the
empty-response error, a fixed error text distinct from the wrapped
transport-error form and from the iteration-exhaustion error. However,
when the very first gateway response of an exchange has no tool
requests, sendMessage does not perform the empty-content check: the
exchange ends Done with the (possibly empty) content appended as an
AssistantText turn. -/
theorem c5_empty_response :
    (∀ (gw : Gateway) (exec : ExecFn) (n : Nat) (msgs : List Message)
        (resp : Response),
      gw msgs = Except.ok resp → resp.toolCalls = [] → resp.content = "" →
      finalLoop gw exec (n + 1) msgs =
        ⟨Outcome.failed emptyResponseError, msgs, 0, 1⟩) ∧
    (∀ e, emptyResponseError ≠ finalErrorWrap e) ∧
    emptyResponseError ≠ maxIterationsError ∧
    (∀ (gw : Gateway) (exec : ExecFn) (m0 : List Message) (input : String)
        (resp : Response),
      gw (m0 ++ [userMsg input]) = Except.ok resp → resp.toolCalls = [] →
      runExchange gw exec m0 input =
        ⟨Outcome.done resp.content, m0 ++ [userMsg input],
         (m0 ++ [userMsg input]) ++ [assistantMsg resp.content], 0, 1⟩) := by
  refine ⟨?_, ?_, by decide, ?_⟩
  · intro gw exec n msgs resp hgw h2 h3
    exact finalLoop_empty_resp gw exec n msgs resp hgw h2 h3
  · intro e h
    have h2 := congrArg (fun s => s.data.take 22) h
    simp only [finalErrorWrap, String.data_append,
      List.take_append_eq_append_take] at h2
    have hlen : ("final response error: " : String).data.length = 22 := rfl
    rw [List.take_of_length_le (le_of_eq hlen), hlen] at h2
    norm_num at h2
    exact absurd h2 (by decide)
  · intro gw exec m0 input resp hgw h2
    exact runExchange_no_tools gw exec m0 input resp hgw h2

theorem c5_empty_response_witness :
    finalLoop (fun _ => Except.ok ⟨"", []⟩) execOk 1 [userMsg "hi"] =
      ⟨Outcome.failed emptyResponseError, [userMsg "hi"], 0, 1⟩ ∧
    emptyResponseError ≠ finalErrorWrap "boom" ∧
    runExchange (fun _ => Except.ok ⟨"hello", []⟩) execOk [] "hi" =
      ⟨Outcome.done "hello", [userMsg "hi"],
        [userMsg "hi", assistantMsg "hello"], 0, 1⟩ :=
  ⟨c5_empty_response.1 (fun _ => Except.ok ⟨"", []⟩) execOk 0 [userMsg "hi"]
     ⟨"", []⟩ rfl rfl rfl,
   c5_empty_response.2.1 "boom",
   c5_empty_response.2.2.2 (fun _ => Except.ok ⟨"hello", []⟩) execOk [] "hi"
     ⟨"hello", []⟩ rfl rfl⟩

/-- C5 counterexample to the claim as stated: a first gateway response
with empty content and no tool requests ends the exchange Done, with an
empty AssistantText turn appended to the transcript, instead of Failed
with the empty-response error. -/
theorem c5_counterexample :
    runExchange (fun _ => Except.ok ⟨"", []⟩) execOk [] "hi" =
      ⟨Outcome.done "", [userMsg "hi"], [userMsg "hi", assistantMsg ""], 0, 1⟩ ∧
    (runExchange (fun _ => Except.ok ⟨"", []⟩) execOk [] "hi").outcome ≠
      Outcome.failed emptyResponseError := by
  exact ⟨by decide, by decide⟩

/-- C6. Corrected. A transport error ends the exchange Failed. On the
initial gateway call the error is carried verbatim and the failure
result carries no messages (the responseMsg messages field is nil),
while the TUI transcript keeps the user turn plus an inline error
turn. On a follow-up call the error is wrapped as final response error
plus the cause — not verbatim — and the failure result carries exactly
the transcript as of immediately before the failing call; the TUI
transcript, however, retains only the turns through the first
tool-execution phase plus an inline error turn, because the responseMsg
error branch of Update ignores the messages field. -/
theorem c6_transport_error :
    (∀ (gw : Gateway) (exec : ExecFn) (m0 : List Message) (input e : String),
      gw (m0 ++ [userMsg input]) = Except.error e →
      runExchange gw exec m0 input =
        ⟨Outcome.failed e, [],
         (m0 ++ [userMsg input]) ++ [assistantMsg ("Error: " ++ e)], 0, 1⟩) ∧
    (∀ (gw : Gateway) (exec : ExecFn) (n : Nat) (msgs : List Message) (e : String),
      gw msgs = Except.error e →
      finalLoop gw exec (n + 1) msgs =
        ⟨Outcome.failed (finalErrorWrap e), msgs, 0, 1⟩) ∧
    (∀ (gw : Gateway) (exec : ExecFn) (m0 : List Message) (input : String)
        (resp : Response) (e : String),
      gw (m0 ++ [userMsg input]) = Except.ok resp → resp.toolCalls ≠ [] →
      (finalLoop gw exec maxIterations
          (processToolCalls exec (m0 ++ [userMsg input]) resp.toolCalls)).outcome =
        Outcome.failed e →
      (runExchange gw exec m0 input).outcome = Outcome.failed e ∧
      (runExchange gw exec m0 input).resultMessages =
        (finalLoop gw exec maxIterations
          (processToolCalls exec (m0 ++ [userMsg input]) resp.toolCalls)).messages ∧
      (runExchange gw exec m0 input).finalTranscript =
        processToolCalls exec (m0 ++ [userMsg input]) resp.toolCalls
          ++ [assistantMsg ("Error: " ++ e)]) := by
  refine ⟨?_, ?_, ?_⟩
  · intro gw exec m0 input e h
    exact runExchange_gw_error gw exec m0 input e h
  · intro gw exec n msgs e h
    exact finalLoop_gw_error gw exec n msgs e h
  · intro gw exec m0 input resp e hgw htc hout
    rw [runExchange_tools gw exec m0 input resp hgw htc]
    simp only [hout]
    refine ⟨?_, ?_, ?_⟩ <;> trivial

theorem c6_transport_error_witness :
    runExchange (fun _ => Except.error "down") execOk [] "q" =
      ⟨Outcome.failed "down", [],
        [userMsg "q", assistantMsg ("Error: " ++ "down")], 0, 1⟩ ∧
    finalLoop (fun _ => Except.error "down") execOk 1 [userMsg "q"] =
      ⟨Outcome.failed (finalErrorWrap "down"), [userMsg "q"], 0, 1⟩ ∧
    (runExchange gwFailThird execOk [] "hi").outcome =
      Outcome.failed "final response error: boom" :=
  ⟨c6_transport_error.1 (fun _ => Except.error "down") execOk [] "q" "down" rfl,
   c6_transport_error.2.1 (fun _ => Except.error "down") execOk 0 [userMsg "q"]
     "down" rfl,
   (c6_transport_error.2.2 gwFailThird execOk [] "hi" ⟨"", [tcBash]⟩
     "final response error: boom" (by decide) (by decide) (by decide)).1⟩

/-- C6 counterexample to the claim as stated: with a gateway whose
third call fails with transport error boom, the exchange fails with
the wrapped text final response error: boom — not the transport error
verbatim — and the TUI transcript retains 4 turns while the failure
result carries 5: the request and result turns of the second
tool-execution cycle, appended before the failing call, are dropped
from the retained transcript. -/
theorem c6_counterexample :
    runExchange gwFailThird execOk [] "hi" =
      ⟨Outcome.failed "final response error: boom",
       [userMsg "hi", toolRequestMsg tcBash, toolResultMsg execOk tcBash,
        toolRequestMsg tcBash, toolResultMsg execOk tcBash],
       [userMsg "hi", toolRequestMsg tcBash, toolResultMsg execOk tcBash,
        assistantMsg ("Error: " ++ "final response error: boom")],
       2, 3⟩ ∧
    ("final response error: boom" : String) ≠ "boom" ∧
    (runExchange gwFailThird execOk [] "hi").finalTranscript.length = 4 ∧
    (runExchange gwFailThird execOk [] "hi").resultMessages.length = 5 := by
  exact ⟨by decide, by decide, by decide, by decide⟩

/-- C7. Corrected (amended). RegisterTool has no failure path: a second
registration under the same name silently replaces the previously
registered handler — lookups under the name now reach the new handler
and Execute dispatches to it — while other names are unaffected. -/
theorem c7_register_replaces (te : ToolExecutor) (name : String)
    (h1 h2 : ToolHandler) :
    (RegisterTool (RegisterTool te name h1) name h2).tools name = some h2 ∧
    (∀ other, other ≠ name →
      (RegisterTool (RegisterTool te name h1) name h2).tools other =
        te.tools other) ∧
    (∀ tc : ToolCall, tc.name = name →
      Execute (RegisterTool (RegisterTool te name h1) name h2) tc =
        h2 tc.input) := by
  refine ⟨by simp [RegisterTool], ?_, ?_⟩
  · intro other hother
    simp [RegisterTool, hother]
  · intro tc htc
    simp [Execute, RegisterTool, htc]

theorem c7_register_replaces_witness :
    (RegisterTool (RegisterTool ⟨fun _ => none⟩ "bash" (fun _ => Except.ok "h1"))
        "bash" (fun _ => Except.ok "h2")).tools "bash" =
      some (fun _ => Except.ok "h2") ∧
    (RegisterTool (RegisterTool ⟨fun _ => none⟩ "bash" (fun _ => Except.ok "h1"))
        "bash" (fun _ => Except.ok "h2")).tools "get_time" =
      (⟨fun _ => none⟩ : ToolExecutor).tools "get_time" ∧
    Execute (RegisterTool (RegisterTool ⟨fun _ => none⟩ "bash"
        (fun _ => Except.ok "h1")) "bash" (fun _ => Except.ok "h2"))
      ⟨"id", "bash", "x"⟩ = (fun _ => Except.ok "h2" : ToolHandler) "x" :=
  have h := c7_register_replaces ⟨fun _ => none⟩ "bash"
    (fun _ => Except.ok "h1") (fun _ => Except.ok "h2")
  ⟨h.1, h.2.1 "get_time" (by decide), h.2.2 ⟨"id", "bash", "x"⟩ rfl⟩

/-- C7 counterexample to the claim as stated: the shipped constructor
tools.New itself registers bash twice — once from ai.NewToolExecutor
and once with the tools-package handler — and the second registration
does not fail: Execute dispatches bash to the second handler, the
first is silently dropped. -/
theorem c7_counterexample :
    Execute (toolsNew (fun _ => Except.ok "ai-bash") (fun _ => Except.ok "time")
        (fun _ => Except.ok "tools-bash") (fun _ => Except.ok "smi"))
      ⟨"id", "bash", "x"⟩ = Except.ok "tools-bash" ∧
    (Except.ok "tools-bash" : Except String String) ≠ Except.ok "ai-bash" ∧
    (Except.ok "tools-bash" : Except String String) ≠
      Except.error ("tool not found: " ++ "bash") := by
  exact ⟨by decide, by decide, by decide⟩

theorem decodeCommandStep_keeps_error (acc : String × Option String)
    (p : String × Json) (e : String) (h : acc.2 = some e) :
    (decodeCommandStep acc p).2 = some e := by
  rcases p with ⟨k, v⟩
  rw [decodeCommandStep]
  by_cases hk : keyMatchesCommand k = true
  · cases v <;> simp [hk, h]
  · simp [hk, h]

theorem decodeCommandStep_inv (acc : String × Option String)
    (p : String × Json)
    (h : acc.2 = none ∨ acc.2 = some commandTypeError) :
    (decodeCommandStep acc p).2 = none ∨
    (decodeCommandStep acc p).2 = some commandTypeError := by
  rcases p with ⟨k, v⟩
  rw [decodeCommandStep]
  rcases h with h | h <;> by_cases hk : keyMatchesCommand k = true <;>
    cases v <;> simp [hk, h]

theorem foldl_decode_keeps_error (e : String) :
    ∀ (kvs : List (String × Json)) (acc : String × Option String),
      acc.2 = some e → (kvs.foldl decodeCommandStep acc).2 = some e
  | [], _, h => h
  | p :: rest, acc, h => by
      rw [List.foldl_cons]
      exact foldl_decode_keeps_error e rest _
        (decodeCommandStep_keeps_error acc p e h)

theorem foldl_decode_inv :
    ∀ (kvs : List (String × Json)) (acc : String × Option String),
      acc.2 = none ∨ acc.2 = some commandTypeError →
      (kvs.foldl decodeCommandStep acc).2 = none ∨
      (kvs.foldl decodeCommandStep acc).2 = some commandTypeError
  | [], _, h => h
  | p :: rest, acc, h => by
      rw [List.foldl_cons]
      exact foldl_decode_inv rest _ (decodeCommandStep_inv acc p h)

theorem foldl_decode_skip :
    ∀ (kvs : List (String × Json)) (acc : String × Option String),
      (∀ p ∈ kvs, keyMatchesCommand p.1 = false) →
      kvs.foldl decodeCommandStep acc = acc
  | [], _, _ => rfl
  | p :: rest, acc, h => by
      rw [List.foldl_cons]
      have hstep : decodeCommandStep acc p = acc := by
        rw [decodeCommandStep]
        simp [h p (List.mem_cons_self p rest)]
      rw [hstep]
      exact foldl_decode_skip rest acc (fun q hq => h q (List.mem_cons_of_mem p hq))

theorem foldl_decode_no_error :
    ∀ (kvs : List (String × Json)) (acc : String × Option String),
      acc.2 = none →
      (∀ p ∈ kvs, keyMatchesCommand p.1 = true → isStrOrNull p.2 = true) →
      (kvs.foldl decodeCommandStep acc).2 = none
  | [], _, h, _ => h
  | p :: rest, acc, h, hall => by
      rw [List.foldl_cons]
      refine foldl_decode_no_error rest _ ?_
        (fun q hq => hall q (List.mem_cons_of_mem p hq))
      rcases p with ⟨k, v⟩
      rw [decodeCommandStep]
      by_cases hk : keyMatchesCommand k = true
      · have hv := hall (k, v) (List.mem_cons_self _ rest) hk
        cases v <;> simp_all [isStrOrNull]
      · simp [hk, h]

theorem keyMatchesCommand_command : keyMatchesCommand "command" = true := by decide

theorem decode_last_binding {extra : List (String × Json)}
    (hextra : ∀ p ∈ extra, keyMatchesCommand p.1 = false)
    {pre : List (String × Json)}
    (hpre : ∀ p ∈ pre, keyMatchesCommand p.1 = true → isStrOrNull p.2 = true)
    (c : String) :
    decodeCommandObj (pre ++ ("command", Json.str c) :: extra) = Except.ok c := by
  rw [decodeCommandObj, List.foldl_append, List.foldl_cons]
  have hnone := foldl_decode_no_error pre ("", none) rfl hpre
  rcases hfold : pre.foldl decodeCommandStep ("", none) with ⟨x, sav⟩
  rw [hfold] at hnone
  simp only at hnone
  have hstep : decodeCommandStep (x, sav) ("command", Json.str c) = (c, sav) := by
    rw [decodeCommandStep]
    simp [keyMatchesCommand_command]
  rw [hstep, foldl_decode_skip extra (c, sav) hextra, hnone]

theorem decode_mistyped (pre2 post : List (String × Json)) (n : Int) :
    decodeCommandObj (pre2 ++ ("command", Json.num n) :: post) =
      Except.error commandTypeError := by
  rw [decodeCommandObj, List.foldl_append, List.foldl_cons]
  have hinv := foldl_decode_inv pre2 ("", none) (Or.inl rfl)
  rcases hfold : pre2.foldl decodeCommandStep ("", none) with ⟨x, sav⟩
  rw [hfold] at hinv
  have hstep : (decodeCommandStep (x, sav) ("command", Json.num n)).2 =
      some commandTypeError := by
    rw [decodeCommandStep]
    rcases hinv with h | h <;> simp only at h <;> simp [keyMatchesCommand_command, h]
  have hend := foldl_decode_keeps_error commandTypeError post _ hstep
  rcases hfold2 : post.foldl decodeCommandStep
      (decodeCommandStep (x, sav) ("command", Json.num n)) with ⟨y, sav2⟩
  rw [hfold2] at hend
  simp only at hend
  rw [hend]

/-- C8. Corrected. For the bash and nvidia_smi handlers: object keys
that do not match the field command — exactly or case-insensitively,
as encoding/json matches fields — are ignored; a well-formed object
with no matching binding is NOT rejected: json.Unmarshal leaves the Go
zero value and the handler runs the empty command. Among matching
bindings the last string binding wins and null bindings are no-ops,
but a matching binding of any other type anywhere in the object makes
Unmarshal save a type error and return it after decoding, so the
handler yields the invalid-input error even when a later duplicate
binding is well-typed; a document that is neither an object nor null
is likewise a type error. -/
theorem c8_arguments (shell : ToolHandler)
    (pre pre2 extra post : List (String × Json)) (c : String) (n : Int)
    (hpre : ∀ p ∈ pre, keyMatchesCommand p.1 = true → isStrOrNull p.2 = true)
    (hextra : ∀ p ∈ extra, keyMatchesCommand p.1 = false) :
    (ExecuteBash shell (Json.obj extra) = shell "" ∧
     ExecuteNvidiaSmi shell (Json.obj extra) = shell "") ∧
    (ExecuteBash shell (Json.obj (pre ++ ("command", Json.str c) :: extra)) =
       shell c ∧
     ExecuteNvidiaSmi shell (Json.obj (pre ++ ("command", Json.str c) :: extra)) =
       shell c) ∧
    ExecuteBash shell (Json.obj (pre2 ++ ("command", Json.num n) :: post)) =
      Except.error ("invalid input: " ++ commandTypeError) ∧
    ExecuteBash shell (Json.obj [("Command", Json.str c)]) = shell c ∧
    ExecuteBash shell Json.null = shell "" ∧
    ExecuteBash shell (Json.str c) =
      Except.error ("invalid input: " ++ "cannot unmarshal value into struct") := by
  have hskip : decodeCommandObj extra = Except.ok "" := by
    rw [decodeCommandObj, foldl_decode_skip extra ("", none) hextra]
  have hlast := decode_last_binding hextra hpre c
  refine ⟨?_, ?_, ?_, ?_, rfl, rfl⟩
  · constructor <;> simp [ExecuteBash, ExecuteNvidiaSmi, unmarshalCommand, hskip]
  · constructor <;> simp [ExecuteBash, ExecuteNvidiaSmi, unmarshalCommand, hlast]
  · simp [ExecuteBash, unmarshalCommand, decode_mistyped pre2 post n]
  · rfl

theorem c8_arguments_witness :
    ExecuteBash (fun cmd => Except.ok ("ran:" ++ cmd))
      (Json.obj [("x", Json.bool true)]) = Except.ok ("ran:" ++ "") ∧
    ExecuteBash (fun cmd => Except.ok ("ran:" ++ cmd))
      (Json.obj ([("Command", Json.str "rm")] ++ ("command", Json.str "ls") ::
        [("x", Json.bool true)])) = Except.ok ("ran:" ++ "ls") ∧
    ExecuteBash (fun cmd => Except.ok ("ran:" ++ cmd))
      (Json.obj ([("command", Json.num 5)] ++ ("command", Json.str "ls") :: [])) =
      Except.error ("invalid input: " ++ commandTypeError) :=
  have h := c8_arguments (fun cmd => Except.ok ("ran:" ++ cmd))
    [("Command", Json.str "rm")] [("command", Json.num 5)]
    [("x", Json.bool true)] [("command", Json.str "ls")] "ls" 5
    (by decide) (by decide)
  ⟨h.1.1, h.2.1.1, h.2.2.1⟩

/-- C8 counterexample to the claim as stated: a well-formed object that
omits the required command key does NOT yield an invalid-arguments
error — the handler runs the empty command (Go json.Unmarshal leaves
the zero value for missing keys); conversely a well-formed object whose
command value is a number (neither malformed nor missing) does yield
the invalid-input error. -/
theorem c8_counterexample :
    ExecuteBash (fun cmd => Except.ok ("ran:" ++ cmd)) (Json.obj []) =
      Except.ok "ran:" ∧
    ExecuteNvidiaSmi (fun cmd => Except.ok ("ran:" ++ cmd)) (Json.obj []) =
      Except.ok "ran:" ∧
    ExecuteBash (fun cmd => Except.ok ("ran:" ++ cmd))
      (Json.obj [("command", Json.num 5)]) =
      Except.error ("invalid input: " ++ "cannot unmarshal value into field command") := by
  exact ⟨rfl, rfl, rfl⟩

theorem processToolCalls_length (exec : ExecFn) :
    ∀ (tcs : List ToolCall) (msgs : List Message),
      (processToolCalls exec msgs tcs).length = msgs.length + 2 * tcs.length
  | [], msgs => by simp [processToolCalls]
  | tc :: rest, msgs => by
      rw [processToolCalls, processToolCalls_length exec rest]
      simp
      omega

theorem finalLoop_congr (g1 g2 : Gateway) (exec : ExecFn) :
    ∀ (n : Nat) (msgs : List Message),
      (∀ m : List Message, msgs.length ≤ m.length → g1 m = g2 m) →
      finalLoop g1 exec n msgs = finalLoop g2 exec n msgs
  | 0, _, _ => rfl
  | Nat.succ n, msgs, h => by
      have hcall : g1 msgs = g2 msgs := h msgs (Nat.le_refl _)
      rcases hgw : g1 msgs with e | resp
      · rw [finalLoop_gw_error g1 exec n msgs e hgw,
          finalLoop_gw_error g2 exec n msgs e (hcall ▸ hgw)]
      · have hgw2 : g2 msgs = Except.ok resp := hcall ▸ hgw
        by_cases h2 : resp.toolCalls = []
        · by_cases h3 : resp.content = ""
          · rw [finalLoop_empty_resp g1 exec n msgs resp hgw h2 h3,
              finalLoop_empty_resp g2 exec n msgs resp hgw2 h2 h3]
          · rw [finalLoop_text g1 exec n msgs resp hgw h2 h3,
              finalLoop_text g2 exec n msgs resp hgw2 h2 h3]
        · rw [finalLoop_tools g1 exec n msgs resp hgw h2,
            finalLoop_tools g2 exec n msgs resp hgw2 h2]
          have hrec := finalLoop_congr g1 g2 exec n
            (processToolCalls exec msgs resp.toolCalls)
            (fun m hm => h m (by
              have hlen := processToolCalls_length exec resp.toolCalls msgs
              omega))
          rw [hrec]

/-- C9. Confirmed. For a gateway response carrying tool requests, the
loop appends only the request-result pairs of those tool calls (in
provider order, none of them an assistant turn with content) and loops;
the accompanying content is discarded: the step taken does not depend
on the response content, and two gateways that differ only in the
content of the tool-carrying entry response produce identical
exchange results. -/
theorem c9_content_discarded (c : String) (tcs : List ToolCall)
    (htcs : tcs ≠ []) (exec : ExecFn) :
    (∀ (gw : Gateway) (n : Nat) (msgs : List Message),
      gw msgs = Except.ok ⟨c, tcs⟩ →
      finalLoop gw exec (n + 1) msgs =
        ⟨(finalLoop gw exec n (processToolCalls exec msgs tcs)).outcome,
         (finalLoop gw exec n (processToolCalls exec msgs tcs)).messages,
         (finalLoop gw exec n (processToolCalls exec msgs tcs)).cycles + 1,
         (finalLoop gw exec n (processToolCalls exec msgs tcs)).calls + 1⟩) ∧
    (∀ msgs : List Message, processToolCalls exec msgs tcs =
      msgs ++ tcs.flatMap (fun tc => [toolRequestMsg tc, toolResultMsg exec tc])) ∧
    (∀ m ∈ tcs.flatMap (fun tc => [toolRequestMsg tc, toolResultMsg exec tc]),
      m.role = "assistant" → m.content = "") ∧
    (∀ (g1 g2 : Gateway) (m0 : List Message) (input : String),
      g1 (m0 ++ [userMsg input]) = Except.ok ⟨c, tcs⟩ →
      g2 (m0 ++ [userMsg input]) = Except.ok ⟨"", tcs⟩ →
      (∀ m : List Message, (m0 ++ [userMsg input]).length < m.length → g1 m = g2 m) →
      runExchange g1 exec m0 input = runExchange g2 exec m0 input) := by
  refine ⟨?_, ?_, ?_, ?_⟩
  · intro gw n msgs hgw
    exact finalLoop_tools gw exec n msgs ⟨c, tcs⟩ hgw htcs
  · intro msgs
    exact processToolCalls_eq exec tcs msgs
  · intro m hm
    rw [List.mem_flatMap] at hm
    obtain ⟨tc, _, hmem⟩ := hm
    simp only [List.mem_cons, List.not_mem_nil, or_false] at hmem
    rcases hmem with h | h
    · rw [h]; intro; rfl
    · rw [h]; intro hrole; exact absurd hrole (by simp [toolResultMsg])
  · intro g1 g2 m0 input hg1 hg2 hagree
    rw [runExchange_tools g1 exec m0 input ⟨c, tcs⟩ hg1 htcs,
      runExchange_tools g2 exec m0 input ⟨"", tcs⟩ hg2 htcs]
    have hloop := finalLoop_congr g1 g2 exec maxIterations
      (processToolCalls exec (m0 ++ [userMsg input]) tcs)
      (fun m hm => hagree m (by
        have hlen := processToolCalls_length exec tcs (m0 ++ [userMsg input])
        have hpos : 0 < tcs.length := List.length_pos.mpr htcs
        omega))
    rw [hloop]

theorem c9_content_discarded_witness :
    finalLoop gwToolsAlways execOk 1 [userMsg "hi"] =
      ⟨(finalLoop gwToolsAlways execOk 0
          (processToolCalls execOk [userMsg "hi"] [tcBash])).outcome,
       (finalLoop gwToolsAlways execOk 0
          (processToolCalls execOk [userMsg "hi"] [tcBash])).messages,
       (finalLoop gwToolsAlways execOk 0
          (processToolCalls execOk [userMsg "hi"] [tcBash])).cycles + 1,
       (finalLoop gwToolsAlways execOk 0
          (processToolCalls execOk [userMsg "hi"] [tcBash])).calls + 1⟩ ∧
    runExchange gwToolsAlways execOk [] "hi" =
      runExchange
        (fun msgs => if msgs.length ≤ 1 then Except.ok ⟨"", [tcBash]⟩
          else Except.ok ⟨"aside", [tcBash]⟩) execOk [] "hi" :=
  have h := c9_content_discarded "aside" [tcBash] (by decide) execOk
  ⟨h.1 gwToolsAlways 0 [userMsg "hi"] rfl,
   h.2.2.2 gwToolsAlways
     (fun msgs => if msgs.length ≤ 1 then Except.ok ⟨"", [tcBash]⟩
       else Except.ok ⟨"aside", [tcBash]⟩) [] "hi" rfl
     (by simp)
     (fun m hm => by
       simp only [gwToolsAlways]
       rw [if_neg (by simp at hm; omega)])⟩

/-- C10. Confirmed. On Enter, an input whose whitespace-trimmed value
is empty leaves the embedded model state unchanged — no user turn is
appended and no gateway exchange is started (the returned send flag is
false); the transcript changes only when the trimmed input is
non-empty (and the model is not already thinking), in which case
exactly the trimmed user turn is appended and an exchange starts; the
send flag is true only for inputs with a non-empty trimmed value. -/
theorem c10_blank_input (thinking : Bool) (msgs : List Message) (v : String) :
    (trimSpace v = "" → handleEnter thinking msgs v = (msgs, thinking, false)) ∧
    ((handleEnter thinking msgs v).1 ≠ msgs →
      trimSpace v ≠ "" ∧ thinking = false ∧
      handleEnter thinking msgs v = (msgs ++ [userMsg (trimSpace v)], true, true)) ∧
    ((handleEnter thinking msgs v).2.2 = true → trimSpace v ≠ "") := by
  cases thinking with
  | true =>
      refine ⟨fun _ => by simp [handleEnter], fun hne => ?_, fun hs => ?_⟩
      · simp [handleEnter] at hne
      · simp [handleEnter] at hs
  | false =>
      by_cases hv : trimSpace v = ""
      · refine ⟨fun _ => by simp [handleEnter, hv], fun hne => ?_, fun hs => ?_⟩
        · simp [handleEnter, hv] at hne
        · simp [handleEnter, hv] at hs
      · exact ⟨fun h => absurd h hv,
          fun _ => ⟨hv, rfl, by simp [handleEnter, hv]⟩,
          fun _ => hv⟩

theorem c10_blank_input_witness :
    handleEnter false [] "   " = ([], false, false) ∧
    trimSpace " hi " ≠ "" :=
  ⟨(c10_blank_input false [] "   ").1 (by decide),
   (c10_blank_input false [] " hi ").2.2 (by decide)⟩

end Kilo
